import Mathlib

/-!
Verification of the Volkswagen MQB/PQ/MEB car-port control core
(`selfdrive/car/volkswagen/{carstate,carcontroller,radar_interface}.py`).

Each Python routine named in the claims is shallowly embedded as an
executable Lean definition; machine floats are modelled as rationals and
the per-frame mutable object state as explicit state records threaded
through step functions.
-/

namespace VW

/-! ## HCA fault state machine (`CarState.update_hca_state`) -/

/-- The seven symbolic HCA statuses produced by `CCP.hca_status_values`.
A raw signal value outside the table decodes to `none` (Python `dict.get`
returning `None`), hence the state machine consumes `Option HcaStatus`. -/
inductive HcaStatus where
  | INITIALIZING
  | FAULT
  | DISABLED
  | READY
  | ACTIVE
  | REJECTED
  | PREEMPTED
deriving DecidableEq, Repr

/-- `hca_status in ("DISABLED", "READY", "ACTIVE")` from
`carstate.py:419`. -/
def hcaInitDone (s : Option HcaStatus) : Bool :=
  decide (s = some .DISABLED) || decide (s = some .READY) || decide (s = some .ACTIVE)

/-- One call of `CarState.update_hca_state` (`carstate.py:416-422`).
Takes the persisted `self.frame` and `self.eps_init_complete`, returns the
new `eps_init_complete` together with `(temp_fault, perm_fault)`. -/
def updateHcaState (frame : Nat) (epsInit : Bool) (status : Option HcaStatus) :
    Bool × Bool × Bool :=
  let epsInit' := epsInit || (hcaInitDone status || decide (600 < frame))
  let permFault := decide (status = some .DISABLED) ||
    (epsInit' && (decide (status = some .INITIALIZING) || decide (status = some .FAULT)))
  let tempFault := decide (status = some .REJECTED) || decide (status = some .PREEMPTED) ||
    !epsInit'
  (epsInit', tempFault, permFault)

/-- Persistent per-instance state consumed by `update_hca_state`:
`self.frame` (incremented once per `update` call, after the HCA state
machine ran) and `self.eps_init_complete`. -/
structure HcaRun where
  frame : Nat
  epsInit : Bool
deriving DecidableEq, Repr

/-- One whole frame as seen by the HCA state machine: run
`update_hca_state` on the current status, then advance `self.frame`. -/
def hcaRunStep (s : HcaRun) (status : Option HcaStatus) : HcaRun × Bool × Bool :=
  let r := updateHcaState s.frame s.epsInit status
  (⟨s.frame + 1, r.1⟩, r.2)

/-- Fold a sequence of per-frame HCA statuses through the state machine. -/
def hcaRun (s : HcaRun) : List (Option HcaStatus) → HcaRun
  | [] => s
  | st :: rest => hcaRun (hcaRunStep s st).1 rest

/-- The list of `(steerFaultTemporary, steerFaultPermanent)` outputs of a
run, one pair per frame. -/
def hcaRunOutputs (s : HcaRun) : List (Option HcaStatus) → List (Bool × Bool)
  | [] => []
  | st :: rest => (hcaRunStep s st).2 :: hcaRunOutputs (hcaRunStep s st).1 rest

/-- Spec-side formula: `steerFaultPermanent` = (status == DISABLED) OR
(epsInitComplete AND status ∈ {INITIALIZING, FAULT}). -/
def specSteerFaultPermanent (epsInitComplete : Bool) (status : Option HcaStatus) : Bool :=
  decide (status = some .DISABLED) ||
    (epsInitComplete &&
      (decide (status = some .INITIALIZING) || decide (status = some .FAULT)))

/-- Spec-side formula: `steerFaultTemporary` = status ∈ {REJECTED,
PREEMPTED} OR NOT epsInitComplete. -/
def specSteerFaultTemporary (epsInitComplete : Bool) (status : Option HcaStatus) : Bool :=
  decide (status = some .REJECTED) || decide (status = some .PREEMPTED) || !epsInitComplete

lemma updateHcaState_epsInit_mono (frame : Nat) (status : Option HcaStatus)
    (h : epsInit = true) : (updateHcaState frame epsInit status).1 = true := by
  simp [updateHcaState, h]

lemma hcaRun_epsInit_mono (l : List (Option HcaStatus)) (s : HcaRun)
    (h : s.epsInit = true) : (hcaRun s l).epsInit = true := by
  induction l generalizing s with
  | nil => exact h
  | cons st rest ih =>
      exact ih _ (updateHcaState_epsInit_mono s.frame st h)

/-- **C1.** `epsInitComplete` latches: on any frame whose reported status
is DISABLED/READY/ACTIVE, or whose frame counter has passed 600, or where
it is already set, the updated `eps_init_complete` is true, and it remains
true on every subsequent frame regardless of the statuses reported
afterwards. -/
theorem epsInitComplete_latches_permanently (s : HcaRun) (status : Option HcaStatus)
    (l : List (Option HcaStatus))
    (h : hcaInitDone status = true ∨ 600 < s.frame ∨ s.epsInit = true) :
    (hcaRunStep s status).1.epsInit = true ∧
    (hcaRun (hcaRunStep s status).1 l).epsInit = true := by
  have hnow : (hcaRunStep s status).1.epsInit = true := by
    rcases h with h | h | h
    · simp [hcaRunStep, updateHcaState, h]
    · simp [hcaRunStep, updateHcaState, h]
    · simp [hcaRunStep, updateHcaState, h]
  exact ⟨hnow, hcaRun_epsInit_mono l _ hnow⟩

/-- Witness for `epsInitComplete_latches_permanently`: the latch fires on
an `ACTIVE` status at frame 0 and survives a later `FAULT`. -/
theorem epsInitComplete_latches_permanently_witness :
    (hcaRunStep ⟨0, false⟩ (some .ACTIVE)).1.epsInit = true ∧
    (hcaRun (hcaRunStep ⟨0, false⟩ (some .ACTIVE)).1 [some .FAULT, none]).epsInit = true :=
  epsInitComplete_latches_permanently ⟨0, false⟩ (some .ACTIVE) [some .FAULT, none]
    (Or.inl (by decide))

/-- **C2.** Every frame recomputes the steering faults from the current
status by the spec formulas (with `epsInitComplete` the value just
updated on that frame); and for the status sequence INITIALIZING×50 then
ACTIVE, `steerFaultPermanent` is false on every frame while
`steerFaultTemporary` is true exactly on the frames before ACTIVE. -/
theorem steer_faults_formula_and_init_scenario :
    (∀ (frame : Nat) (epsInit : Bool) (status : Option HcaStatus),
      (updateHcaState frame epsInit status).2.2 =
        specSteerFaultPermanent (updateHcaState frame epsInit status).1 status ∧
      (updateHcaState frame epsInit status).2.1 =
        specSteerFaultTemporary (updateHcaState frame epsInit status).1 status) ∧
    hcaRunOutputs ⟨0, false⟩
        (List.replicate 50 (some .INITIALIZING) ++ [some .ACTIVE]) =
      List.replicate 50 (true, false) ++ [(false, false)] := by
  refine ⟨fun frame epsInit status => ⟨rfl, rfl⟩, ?_⟩
  decide

/-! ## Unit conversions

Modelled from the spec: the repository imports `Conversions` (`CV`) from
`openpilot.common.conversions`, which is not under `src/`; these are the
standard mile/kilometre conversion constants it provides. -/

/-- `CV.MPH_TO_KPH` (exact: 1.609344 km per mile). -/
def MPH_TO_KPH : ℚ := 1609344 / 1000000

/-- `CV.KPH_TO_MS` (km/h to m/s). -/
def KPH_TO_MS : ℚ := 1 / (36 / 10)

/-- `CV.MPH_TO_MS` (mph to m/s). -/
def MPH_TO_MS : ℚ := MPH_TO_KPH * KPH_TO_MS

/-! ## Curve-speed hysteresis (`CarController.curve_speed_hysteresis`) -/

/-- Default margin of `curve_speed_hysteresis`: `0.75 * CV.MPH_TO_KPH`. -/
def CURVE_HYST : ℚ := (75 / 100) * MPH_TO_KPH

/-- `CarController.curve_speed_hysteresis` (`carcontroller.py:453-458`):
given the candidate `cur_speed` and the persisted `self.steady_speed`,
returns the new held steady speed (which the method also returns). -/
def curveSpeedHysteresis (curSpeed steadySpeed : ℚ) (hyst : ℚ := CURVE_HYST) : ℚ :=
  if steadySpeed < curSpeed then curSpeed
  else if curSpeed < steadySpeed - hyst then curSpeed
  else steadySpeed

/-- Fold of `curve_speed_hysteresis` over a sequence of candidates. -/
def curveHystRun (steadySpeed : ℚ) : List ℚ → ℚ
  | [] => steadySpeed
  | c :: rest => curveHystRun (curveSpeedHysteresis c steadySpeed) rest

/-- **C6.** For every held steady value (hence at every point of every
candidate sequence): the held value decreases only if the candidate is
more than the 0.75 mph (in km/h) margin below it, and a candidate above
the held value immediately replaces it. -/
theorem curve_hysteresis_one_sided (steadySpeed curSpeed : ℚ) :
    (curveSpeedHysteresis curSpeed steadySpeed < steadySpeed →
      curSpeed < steadySpeed - CURVE_HYST) ∧
    (steadySpeed < curSpeed → curveSpeedHysteresis curSpeed steadySpeed = curSpeed) := by
  constructor
  · intro hlt
    unfold curveSpeedHysteresis at hlt
    split at hlt
    · exact absurd hlt (not_lt.mpr (le_of_lt (by assumption)))
    · split at hlt
      · assumption
      · exact absurd hlt (lt_irrefl _)
  · intro h1
    rw [curveSpeedHysteresis, if_pos h1]

/-- Witness for `curve_hysteresis_one_sided`: a candidate above the held
value replaces it immediately. -/
theorem curve_hysteresis_one_sided_witness :
    curveSpeedHysteresis 50 40 = 50 :=
  (curve_hysteresis_one_sided 40 50).2 (by norm_num)

/-! ## MEB traffic-sign speed limit (`CarState.update_traffic_signals`) -/

/-- Decoded fields of one multiplexed `PSD_06` message. Fields other than
the selected mux page are don't-care but always present on the parsed
message, so they are plain fields here. -/
structure Psd06 where
  mux : ℤ
  gesTyp : ℤ
  gesKategorie : ℤ
  gesGeschwindigkeit : ℤ
  sysEinheit : ℤ
  sysQuali : ℤ
deriving DecidableEq, Repr

/-- Persistent traffic-sign decoder state: `self.v_limit`,
`self.v_limit_speed_factor`, `self.v_limit_receive`. -/
structure TrafficState where
  vLimit : ℚ
  speedFactor : ℚ
  receive : Bool
deriving DecidableEq, Repr

/-- The piecewise raw-value step table of `update_traffic_signals`
(`carstate.py:399-404`): raw 1..10 in steps of 5 up to 45, raw 11..22 in
steps of 10 from 50 up to 160, anything else 0. -/
def psdConvert (raw : ℤ) : ℚ :=
  if 0 < raw ∧ raw < 11 then (raw - 1) * 5
  else if 11 ≤ raw ∧ raw < 23 then 50 + (raw - 11) * 10
  else 0

/-- One call of `CarState.update_traffic_signals` for the MEB variant
(`carstate.py:390-414`): consumes one `PSD_06` message, returns the new
state and the returned `self.v_limit`. -/
def updateTrafficSignals (m : Psd06) (s : TrafficState) : TrafficState × ℚ :=
  if m.mux = 2 then
    if s.receive = true ∧ m.gesTyp = 1 ∧ m.gesKategorie = 0 then
      let v := psdConvert m.gesGeschwindigkeit * s.speedFactor
      (⟨v, s.speedFactor, false⟩, v)
    else (s, s.vLimit)
  else if m.mux = 0 then
    let f : ℚ := if m.sysEinheit = 1 then MPH_TO_MS
      else if m.sysEinheit = 0 then KPH_TO_MS else 0
    (⟨s.vLimit, f, decide (m.sysQuali = 7)⟩, s.vLimit)
  else (s, s.vLimit)

/-- **C7.** Traffic-sign decoding: a payload sub-message (mux 2) changes
nothing unless the one-shot permission is set; an accepted payload
converts the raw value through the 5-step/10-step table, multiplies by
the learned unit factor and consumes the permission; an init sub-message
(mux 0) grants the permission exactly when its quality flag is 7 and
stores the unit factor; and from a cleared permission, only such an init
sub-message can set it. -/
theorem traffic_signal_decoder_correct (m : Psd06) (s : TrafficState) :
    (s.receive = false → m.mux = 2 → updateTrafficSignals m s = (s, s.vLimit)) ∧
    (s.receive = true → m.mux = 2 → m.gesTyp = 1 → m.gesKategorie = 0 →
      updateTrafficSignals m s =
        (⟨psdConvert m.gesGeschwindigkeit * s.speedFactor, s.speedFactor, false⟩,
          psdConvert m.gesGeschwindigkeit * s.speedFactor) ∧
      (1 ≤ m.gesGeschwindigkeit → m.gesGeschwindigkeit ≤ 10 →
        (updateTrafficSignals m s).1.vLimit =
          (m.gesGeschwindigkeit - 1) * 5 * s.speedFactor) ∧
      (11 ≤ m.gesGeschwindigkeit → m.gesGeschwindigkeit ≤ 22 →
        (updateTrafficSignals m s).1.vLimit =
          (50 + (m.gesGeschwindigkeit - 11) * 10) * s.speedFactor)) ∧
    (m.mux = 0 →
      ((updateTrafficSignals m s).1.receive = true ↔ m.sysQuali = 7) ∧
      (updateTrafficSignals m s).1.speedFactor =
        (if m.sysEinheit = 1 then MPH_TO_MS
         else if m.sysEinheit = 0 then KPH_TO_MS else 0)) ∧
    (s.receive = false → (updateTrafficSignals m s).1.receive = true →
      m.mux = 0 ∧ m.sysQuali = 7) := by
  refine ⟨?_, ?_, ?_, ?_⟩
  · intro hr hmux
    simp [updateTrafficSignals, hmux, hr]
  · intro hr hmux htyp hkat
    have hacc : updateTrafficSignals m s =
        (⟨psdConvert m.gesGeschwindigkeit * s.speedFactor, s.speedFactor, false⟩,
          psdConvert m.gesGeschwindigkeit * s.speedFactor) := by
      simp [updateTrafficSignals, hmux, hr, htyp, hkat]
    refine ⟨hacc, ?_, ?_⟩
    · intro h1 h2
      rw [hacc]
      simp only [psdConvert]
      rw [if_pos ⟨by omega, by omega⟩]
    · intro h1 h2
      rw [hacc]
      simp only [psdConvert]
      rw [if_neg (by omega), if_pos ⟨by omega, by omega⟩]
  · intro hmux
    have h2 : m.mux ≠ 2 := by omega
    constructor
    · simp [updateTrafficSignals, hmux, h2]
    · simp [updateTrafficSignals, hmux, h2]
  · intro hr hnew
    by_cases hmux : m.mux = 0
    · refine ⟨hmux, ?_⟩
      have h2 : m.mux ≠ 2 := by omega
      simp only [updateTrafficSignals, if_neg h2, if_pos hmux] at hnew
      exact of_decide_eq_true hnew
    · exfalso
      by_cases h2 : m.mux = 2
      · rw [updateTrafficSignals, if_pos h2, if_neg (by simp [hr])] at hnew
        rw [hr] at hnew
        exact Bool.false_ne_true hnew
      · rw [updateTrafficSignals, if_neg h2, if_neg hmux] at hnew
        rw [hr] at hnew
        exact Bool.false_ne_true hnew

/-- Witness for `traffic_signal_decoder_correct`: after an init message
with quality 7 and km/h unit, a payload with raw value 12 (→ 60 km/h)
is accepted, converted and consumes the permission. -/
theorem traffic_signal_decoder_correct_witness :
    updateTrafficSignals ⟨2, 1, 0, 12, 0, 0⟩ ⟨0, KPH_TO_MS, true⟩ =
      (⟨60 * KPH_TO_MS, KPH_TO_MS, false⟩, 60 * KPH_TO_MS) := by
  have h := (traffic_signal_decoder_correct ⟨2, 1, 0, 12, 0, 0⟩ ⟨0, KPH_TO_MS, true⟩).2.1
    rfl rfl rfl rfl
  rw [h.1]
  have h60 : psdConvert 12 = 60 := by norm_num [psdConvert]
  rw [h60]

/-! ## Non-MEB steering torque limiter (`CarController.update`, active branch) -/

/-- Timing constants of the non-MEB steering path. `CCP.STEER_STEP` and
`CCP.STEER_TIME_STUCK_TORQUE / DT_CTRL` come from `values.py`, which is
not under `src/`; they are kept as parameters here. -/
structure SteerParams where
  steerStep : Nat
  stuckFrames : Nat
deriving DecidableEq, Repr

/-- Modelled from the spec: the HCA steering message is emitted on every
second 100 Hz control frame (`HCA_01` at 50 Hz), and the stuck-torque
duration is the spec's fixed 6 s, i.e. 6 / DT_CTRL = 600 control
frames. -/
def MQB_STEER_PARAMS : SteerParams := ⟨2, 600⟩

/-- Persistent limiter state: `self.apply_steer_last`,
`self.hca_frame_same_torque`, `self.hca_frame_timer_running`. -/
structure SteerLimiterState where
  applySteerLast : Int
  hcaFrameSameTorque : Nat
  hcaFrameTimerRunning : Nat
deriving DecidableEq, Repr

/-- One active steering tick of `CarController.update`
(`carcontroller.py:167-188`, the `CC.latActive` branch).  `limited` is
the output of `apply_driver_steer_torque_limits` (an external
collaborator) for this tick; the function returns the new state and the
transmitted `apply_steer`. -/
def hcaActiveStep (P : SteerParams) (limited : Int) (s : SteerLimiterState) :
    SteerLimiterState × Int :=
  let timer := s.hcaFrameTimerRunning + P.steerStep
  if s.applySteerLast = limited then
    let same := s.hcaFrameSameTorque + P.steerStep
    if P.stuckFrames < same then
      let out := limited - (if limited < 0 then -1 else 1)
      (⟨out, 0, if out ≠ 0 then timer else 0⟩, out)
    else
      (⟨limited, same, if limited ≠ 0 then timer else 0⟩, limited)
  else
    (⟨limited, 0, if limited ≠ 0 then timer else 0⟩, limited)

/-- Fold of consecutive active steering ticks over their limiter
outputs. -/
def hcaActiveRun (P : SteerParams) (s : SteerLimiterState) : List Int → SteerLimiterState
  | [] => s
  | x :: xs => hcaActiveRun P (hcaActiveStep P x s).1 xs

lemma hcaActiveRun_const (P : SteerParams) (v : Int) :
    ∀ (k : Nat) (c t : Nat), c + k * P.steerStep ≤ P.stuckFrames →
      ∃ t2, hcaActiveRun P ⟨v, c, t⟩ (List.replicate k v) =
        ⟨v, c + k * P.steerStep, t2⟩ := by
  intro k
  induction k with
  | zero => intro c t _; exact ⟨t, by simp [hcaActiveRun]⟩
  | succ k ih =>
      intro c t hk
      have hstepge : c + P.steerStep + k * P.steerStep ≤ P.stuckFrames := by
        have : (k + 1) * P.steerStep = k * P.steerStep + P.steerStep := by ring
        omega
      have hnonudge : ¬ P.stuckFrames < c + P.steerStep := by omega
      rw [List.replicate_succ, hcaActiveRun]
      rw [hcaActiveStep]
      simp only [if_pos rfl, if_neg hnonudge, if_true]
      obtain ⟨t2, ht2⟩ := ih (c + P.steerStep) (if v ≠ 0 then t + P.steerStep else 0) hstepge
      refine ⟨t2, ?_⟩
      rw [ht2]
      have : c + P.steerStep + k * P.steerStep = c + (k + 1) * P.steerStep := by ring
      rw [this]

/-- **C3 (amended).** If the applied torque has been held at a nonzero
value `v` for active ticks amounting to more than the stuck-torque
duration (the same-torque frame counter, fed `steerStep` per tick,
exceeds `stuckFrames`), the next tick's output moves by exactly one unit
toward zero: the prefix of `stuckFrames / steerStep` repeats leaves the
torque at `v`, and the following repeat outputs `v - 1` for positive `v`
and `v + 1` for negative `v`, whose magnitude is one below that of `v`.
The original claim's "toward zero" fails only for `v = 0` (see the
counterexample): there the nudge emits `-1`, one unit away from zero. -/
theorem stuck_torque_nudges_toward_zero (P : SteerParams) (v : Int) (t : Nat)
    (hstep : 0 < P.steerStep) (hv : v ≠ 0) :
    (∀ j, j * P.steerStep ≤ P.stuckFrames →
      (hcaActiveRun P ⟨v, 0, t⟩ (List.replicate j v)).applySteerLast = v) ∧
    ((hcaActiveStep P v
        (hcaActiveRun P ⟨v, 0, t⟩
          (List.replicate (P.stuckFrames / P.steerStep) v))).2 =
      (if 0 < v then v - 1 else v + 1)) ∧
    ((hcaActiveStep P v
        (hcaActiveRun P ⟨v, 0, t⟩
          (List.replicate (P.stuckFrames / P.steerStep) v))).2).natAbs + 1 = v.natAbs := by
  have hrun : ∀ j, j * P.steerStep ≤ P.stuckFrames →
      ∃ t2, hcaActiveRun P ⟨v, 0, t⟩ (List.replicate j v) = ⟨v, j * P.steerStep, t2⟩ := by
    intro j hj
    have := hcaActiveRun_const P v j 0 t (by omega)
    simpa using this
  have hdivle : P.stuckFrames / P.steerStep * P.steerStep ≤ P.stuckFrames :=
    Nat.div_mul_le_self _ _
  obtain ⟨t2, ht2⟩ := hrun (P.stuckFrames / P.steerStep) hdivle
  have hover : P.stuckFrames < P.stuckFrames / P.steerStep * P.steerStep + P.steerStep := by
    have hdm := Nat.div_add_mod P.stuckFrames P.steerStep
    have hm := Nat.mod_lt P.stuckFrames hstep
    have hcomm : P.stuckFrames / P.steerStep * P.steerStep =
        P.steerStep * (P.stuckFrames / P.steerStep) := by ring
    omega
  have hout : (hcaActiveStep P v
      (hcaActiveRun P ⟨v, 0, t⟩
        (List.replicate (P.stuckFrames / P.steerStep) v))).2 =
      v - (if v < 0 then -1 else 1) := by
    rw [ht2, hcaActiveStep]
    simp only [if_pos rfl, if_pos hover, if_true]
  refine ⟨?_, ?_, ?_⟩
  · intro j hj
    obtain ⟨t2, ht⟩ := hrun j hj
    rw [ht]
  · rw [hout]
    rcases lt_or_gt_of_ne hv with hneg | hpos
    · rw [if_pos hneg, if_neg (by omega)]
      ring
    · rw [if_neg (by omega), if_pos hpos]
  · rw [hout]
    rcases lt_or_gt_of_ne hv with hneg | hpos
    · rw [if_pos hneg]
      omega
    · rw [if_neg (by omega)]
      omega

/-- Witness for `stuck_torque_nudges_toward_zero`: holding torque 37 with
the spec-modelled MQB timing (step 2, 600 stuck frames) nudges to 36 on
the 301st repeat. -/
theorem stuck_torque_nudges_toward_zero_witness :
    (hcaActiveStep MQB_STEER_PARAMS 37
        (hcaActiveRun MQB_STEER_PARAMS ⟨37, 0, 0⟩ (List.replicate 300 37))).2 =
      (if (0 : Int) < 37 then 37 - 1 else 37 + 1) :=
  (stuck_torque_nudges_toward_zero MQB_STEER_PARAMS 37 0 (by decide) (by decide)).2.1

/-- **C3 counterexample.** With the spec-modelled MQB timing, holding the
applied torque unchanged at 0 for more than 6 s of active ticks makes the
next tick output `-1`: it differs by one unit but moves *away* from zero,
so the claim's "one unit toward zero" is false for a zero held torque. -/
theorem stuck_torque_zero_moves_away_from_zero :
    (hcaActiveStep MQB_STEER_PARAMS 0
        (hcaActiveRun MQB_STEER_PARAMS ⟨0, 0, 0⟩ (List.replicate 300 0))).2 = -1 ∧
    (0 : Int).natAbs < ((-1 : Int)).natAbs := by
  have hrun := hcaActiveRun_const MQB_STEER_PARAMS 0 300 0 0 (by norm_num [MQB_STEER_PARAMS])
  obtain ⟨t2, ht2⟩ := hrun
  simp only [Nat.zero_add] at ht2
  refine ⟨?_, by decide⟩
  rw [ht2, hcaActiveStep]
  norm_num [MQB_STEER_PARAMS]

/-! ## MEB steering-power ramp (`CarController.generate_vw_meb_steering_power`) -/

/-- `openpilot.common.numpy_fast.clip` (lower bound wins ties). -/
def clipQ (x lo hi : ℚ) : ℚ := max lo (min hi x)

/-- `openpilot.common.numpy_fast.interp` for a two-point breakpoint
table, clamping outside the interval. -/
def interpLin (x x0 x1 y0 y1 : ℚ) : ℚ :=
  if x ≤ x0 then y0
  else if x1 ≤ x then y1
  else y0 + (x - x0) * (y1 - y0) / (x1 - x0)

/-- The MEB steering-power constants (`STEERING_POWER_STEPS`,
`STEERING_POWER_MIN`, `STEERING_POWER_MAX`,
`STEERING_POWER_MAX_BY_SPEED`, `CURVATURE_POWER_FACTOR`) come from
`values.py`, which is not under `src/`; they are parameters here. -/
structure MebPowerParams where
  steps : ℚ
  powerMin : ℚ
  powerMax : ℚ
  maxBySpeed : ℚ
  curvFactor : ℚ
deriving DecidableEq, Repr

/-- The `CS.out` fields read by the power ramp. -/
structure MebInputs where
  steeringPressed : Bool
  vEgoRaw : ℚ
  yawRate : ℚ
deriving DecidableEq, Repr

/-- `steering_power_target` of `generate_vw_meb_steering_power`
(`carcontroller.py:330-334`): the speed- and curvature-error-dependent
target, clipped to `[STEERING_POWER_MIN, STEERING_POWER_MAX]`. -/
def mebPowerTarget (P : MebPowerParams) (cs : MebInputs) (applyCurvature : ℚ) : ℚ :=
  let currentCurvature := -cs.yawRate / max cs.vEgoRaw (1 / 10)
  let minBySpeed := interpLin cs.vEgoRaw 0 P.maxBySpeed P.powerMin P.powerMax
  let diff := |applyCurvature - currentCurvature|
  clipQ (minBySpeed + P.curvFactor * (diff + |applyCurvature|)) P.powerMin P.powerMax

/-- The active-branch precedence ladder of
`generate_vw_meb_steering_power` (`carcontroller.py:336-346`). -/
def mebRampToward (steps lo : ℚ) (pressed : Bool) (target prev : ℚ) : ℚ :=
  if prev < lo then min (prev + steps) lo
  else if pressed = true ∧ lo < prev then max (prev - steps) lo
  else if prev < target then min (prev + steps) target
  else if target < prev then max (prev - steps) target
  else prev

/-- `CarController.generate_vw_meb_steering_power`
(`carcontroller.py:323-354`): returns the new steering power from the
previous one. -/
def genMebSteeringPower (P : MebPowerParams) (cs : MebInputs) (latActive : Bool)
    (applyCurvature prev : ℚ) : ℚ :=
  if latActive then
    mebRampToward P.steps P.powerMin cs.steeringPressed (mebPowerTarget P cs applyCurvature) prev
  else
    if 0 < prev then max (prev - P.steps) 0 else 0

/-- Iterated inactive-assist calls of the power ramp, as the control loop
performs once lateral assist is deactivated. -/
def mebPowerDownRun (P : MebPowerParams) (cs : MebInputs) (applyCurvature prev : ℚ)
    (n : ℕ) : ℚ :=
  (fun p => genMebSteeringPower P cs false applyCurvature p)^[n] prev

lemma mebRampToward_abs_le (steps lo : ℚ) (pressed : Bool) (target prev : ℚ)
    (hstep : 0 < steps) : |mebRampToward steps lo pressed target prev - prev| ≤ steps := by
  unfold mebRampToward
  split_ifs with h1 h2 h3 h4
  · rw [abs_le]
    constructor
    · have hmin : prev ≤ min (prev + steps) lo := le_min (by linarith) h1.le
      linarith
    · have := min_le_left (prev + steps) lo
      linarith
  · rw [abs_le]
    constructor
    · have := le_max_left (prev - steps) lo
      linarith
    · have hmax : max (prev - steps) lo ≤ prev := max_le (by linarith) h2.2.le
      linarith
  · rw [abs_le]
    constructor
    · have hmin : prev ≤ min (prev + steps) target := le_min (by linarith) h3.le
      linarith
    · have := min_le_left (prev + steps) target
      linarith
  · rw [abs_le]
    constructor
    · have := le_max_left (prev - steps) lo
      have := le_max_left (prev - steps) target
      linarith
    · have hmax : max (prev - steps) target ≤ prev := max_le (by linarith) h4.le
      linarith
  · simp [abs_le]
    linarith

lemma mebPowerDownRun_closed_form (P : MebPowerParams) (cs : MebInputs)
    (applyCurvature prev : ℚ) (hstep : 0 < P.steps) (hprev : 0 ≤ prev) :
    ∀ n : ℕ, mebPowerDownRun P cs applyCurvature prev n = max (prev - n * P.steps) 0 := by
  intro n
  induction n generalizing prev with
  | zero =>
      simp only [mebPowerDownRun, Function.iterate_zero, id_eq, Nat.cast_zero, zero_mul,
        sub_zero]
      exact (max_eq_left hprev).symm
  | succ n ih =>
      have hstep1 : mebPowerDownRun P cs applyCurvature prev (n + 1) =
          mebPowerDownRun P cs applyCurvature
            (genMebSteeringPower P cs false applyCurvature prev) n := by
        simp only [mebPowerDownRun, Function.iterate_succ_apply]
      rw [hstep1]
      by_cases hpos : 0 < prev
      · have hval : genMebSteeringPower P cs false applyCurvature prev =
            max (prev - P.steps) 0 := by
          simp [genMebSteeringPower, hpos]
        rw [hval, ih _ (le_max_right _ _)]
        rcases le_total (prev - P.steps) 0 with hle | hge
        · rw [max_eq_right hle]
          have h0 : (0 : ℚ) - (n : ℚ) * P.steps ≤ 0 := by
            have : 0 ≤ (n : ℚ) * P.steps := by positivity
            linarith
          rw [max_eq_right h0]
          have : prev - (↑(n + 1)) * P.steps ≤ 0 := by
            push_cast
            have : 0 ≤ (n : ℚ) * P.steps := by positivity
            linarith
          rw [max_eq_right this]
        · rw [max_eq_left hge]
          have harith : prev - P.steps - (n : ℚ) * P.steps = prev - (↑(n + 1)) * P.steps := by
            push_cast
            ring
          rw [harith]
      · have hzero : prev = 0 := le_antisymm (not_lt.mp hpos) hprev
        have hval : genMebSteeringPower P cs false applyCurvature prev = 0 := by
          simp [genMebSteeringPower, hpos]
        rw [hval, ih _ le_rfl, hzero]
        have h1 : (0 : ℚ) - (n : ℚ) * P.steps ≤ 0 := by
          have : 0 ≤ (n : ℚ) * P.steps := by positivity
          linarith
        have h2 : (0 : ℚ) - (↑(n + 1) : ℚ) * P.steps ≤ 0 := by
          push_cast
          have : 0 ≤ (n : ℚ) * P.steps := by positivity
          linarith
        rw [max_eq_right h1, max_eq_right h2]

/-- **C4.** The MEB steering-power ramp changes the power by at most the
fixed per-frame step on every call (active or not); and once lateral
assist is deactivated, from any starting power the iterated ramp stays
nonnegative, decreases monotonically (strictly while positive), and
reaches exactly 0 within `⌈prev / steps⌉` ticks. -/
theorem meb_steering_power_ramp_bounded (P : MebPowerParams) (cs : MebInputs)
    (latActive : Bool) (applyCurvature prev : ℚ)
    (hstep : 0 < P.steps) (hprev : 0 ≤ prev) :
    |genMebSteeringPower P cs latActive applyCurvature prev - prev| ≤ P.steps ∧
    (∀ n : ℕ,
      0 ≤ mebPowerDownRun P cs applyCurvature prev n ∧
      mebPowerDownRun P cs applyCurvature prev (n + 1) ≤
        mebPowerDownRun P cs applyCurvature prev n ∧
      (0 < mebPowerDownRun P cs applyCurvature prev n →
        mebPowerDownRun P cs applyCurvature prev (n + 1) <
          mebPowerDownRun P cs applyCurvature prev n)) ∧
    mebPowerDownRun P cs applyCurvature prev ⌈prev / P.steps⌉₊ = 0 := by
  have hcf := mebPowerDownRun_closed_form P cs applyCurvature prev hstep hprev
  refine ⟨?_, ?_, ?_⟩
  · by_cases hact : latActive = true
    · rw [genMebSteeringPower, if_pos hact]
      exact mebRampToward_abs_le _ _ _ _ _ hstep
    · rw [genMebSteeringPower, if_neg hact]
      by_cases hpos : 0 < prev
      · rw [if_pos hpos, abs_le]
        constructor
        · have := le_max_left (prev - P.steps) (0 : ℚ)
          linarith
        · have : max (prev - P.steps) 0 ≤ prev := max_le (by linarith) hprev
          linarith
      · rw [if_neg hpos, abs_le]
        have : prev = 0 := le_antisymm (not_lt.mp hpos) hprev
        constructor <;> linarith
  · intro n
    rw [hcf n, hcf (n + 1)]
    refine ⟨le_max_right _ _, ?_, ?_⟩
    · apply max_le_max _ le_rfl
      have : (n : ℚ) * P.steps ≤ (↑(n + 1) : ℚ) * P.steps := by
        push_cast
        nlinarith
      linarith
    · intro hp
      have hleft : 0 < prev - (n : ℚ) * P.steps := by
        by_contra hle
        rw [max_eq_right (not_lt.mp hle)] at hp
        exact lt_irrefl _ hp
      apply max_lt
      · have : (n : ℚ) * P.steps < (↑(n + 1) : ℚ) * P.steps := by
          push_cast
          nlinarith
        rw [max_eq_left hleft.le]
        linarith
      · rw [max_eq_left hleft.le]
        exact hleft
  · rw [hcf _]
    have hceil : prev / P.steps ≤ (⌈prev / P.steps⌉₊ : ℚ) := Nat.le_ceil _
    have : prev ≤ (⌈prev / P.steps⌉₊ : ℚ) * P.steps := by
      rw [div_le_iff₀ hstep] at hceil
      exact hceil
    rw [max_eq_right (by linarith)]

/-- Witness for `meb_steering_power_ramp_bounded`: with step 5 and
starting power 7, the inactive ramp hits exactly 0 after
`⌈7/5⌉ = 2` ticks, and a single call moves the power by at most 5. -/
theorem meb_steering_power_ramp_bounded_witness :
    |genMebSteeringPower ⟨5, 20, 50, 30, 100⟩ ⟨false, 0, 0⟩ false 0 7 - 7| ≤ 5 ∧
    mebPowerDownRun ⟨5, 20, 50, 30, 100⟩ ⟨false, 0, 0⟩ 0 7 2 = 0 := by
  have h := meb_steering_power_ramp_bounded ⟨5, 20, 50, 30, 100⟩ ⟨false, 0, 0⟩ false 0 7
    (by norm_num) (by norm_num)
  refine ⟨h.1, ?_⟩
  have hc : ⌈(7 : ℚ) / 5⌉₊ = 2 := by
    rw [Nat.ceil_eq_iff (by norm_num)]
    norm_num
  have h2 := h.2.2
  rw [hc] at h2
  exact h2

/-! ## Stock-button emulator (`CarController.type_0` .. `type_3`) -/

/-- Persistent emulator state: `self.button_type`, `self.button_count`,
`self.target_speed`, plus the per-session `self.v_cruise_min` and
`self.t_interval` (7). Phases: 0 Idle, 1 Increase, 2 Decrease, 3 Hold. -/
structure BtnState where
  buttonType : Nat
  buttonCount : Nat
  targetSpeed : ℤ
  vCruiseMin : ℤ
  tInterval : Nat
deriving DecidableEq, Repr

/-- One emulator cycle: the `get_button_type` dispatch over
`type_0`/`type_1`/`type_2`/`type_3`/`type_default`
(`carcontroller.py:388-429`). `target` is the freshly computed
`self.init_speed` and `vSet` the displayed set-speed `self.v_set_dis`
read this cycle; the second component is the emitted synthetic button
code (`1` accel-side, `2` decel-side, `none` no press). -/
def btnStep (target vSet : ℤ) (s : BtnState) : BtnState × Option Nat :=
  match s.buttonType with
  | 0 =>
      let s0 : BtnState := { s with buttonCount := 0, targetSpeed := target }
      if target > vSet then ({ s0 with buttonType := 1 }, none)
      else if target < vSet ∧ s.vCruiseMin < vSet then ({ s0 with buttonType := 2 }, none)
      else (s0, none)
  | 1 =>
      if s.targetSpeed ≤ vSet then
        ({ s with buttonCount := 0, buttonType := 3 }, some 1)
      else if 5 < s.buttonCount + 1 then
        ({ s with buttonCount := 0, buttonType := 3 }, some 1)
      else
        ({ s with buttonCount := s.buttonCount + 1 }, some 1)
  | 2 =>
      if s.targetSpeed ≥ vSet ∨ vSet ≤ s.vCruiseMin then
        ({ s with buttonCount := 0, buttonType := 3 }, some 2)
      else if 5 < s.buttonCount + 1 then
        ({ s with buttonCount := 0, buttonType := 3 }, some 2)
      else
        ({ s with buttonCount := s.buttonCount + 1 }, some 2)
  | 3 =>
      if s.tInterval < s.buttonCount + 1 then
        ({ s with buttonCount := s.buttonCount + 1, buttonType := 0 }, none)
      else
        ({ s with buttonCount := s.buttonCount + 1 }, none)
  | _ => ({ s with buttonType := 0 }, none)

/-- Idealized settle scenario for the claim's bound: the emulator starts
Idle with constant computed target `target` and initial displayed
set-speed `v0`, and the car moves its displayed set-speed by exactly
`step` display units in response to each synthetic accel press before
the next cycle reads it. -/
def btnScenarioRun (target step vmin v0 : ℤ) : Nat → BtnState × ℤ
  | 0 => (⟨0, 0, 0, vmin, 7⟩, v0)
  | n + 1 =>
      let p := btnScenarioRun target step vmin v0 n
      let r := btnStep target p.2 p.1
      (r.1, if r.2 = some 1 then p.2 + step else p.2)

lemma btnScenario_increase_invariant (target step vmin v0 : ℤ) (m : ℕ)
    (hTV : v0 < target) (hmin : ∀ j : ℕ, j < m → v0 + (j : ℤ) * step < target) :
    ∀ j : ℕ, j + 1 ≤ min (m + 1) 6 →
      btnScenarioRun target step vmin v0 (1 + j) =
        (⟨1, j, target, vmin, 7⟩, v0 + (j : ℤ) * step) := by
  intro j
  induction j with
  | zero =>
      intro _
      show btnScenarioRun target step vmin v0 (0 + 1) = _
      simp only [btnScenarioRun, btnStep]
      rw [if_pos hTV]
      simp
  | succ j ih =>
      intro hj
      have hih := ih (by omega)
      have hjm : j < m := by omega
      have hj5 : j + 1 ≤ 5 := by omega
      show btnScenarioRun target step vmin v0 ((1 + j) + 1) = _
      rw [btnScenarioRun, hih]
      simp only [btnStep]
      rw [if_neg (not_le.mpr (hmin j hjm)), if_neg (by omega)]
      simp only [Option.some.injEq, if_pos rfl, if_true, Prod.mk.injEq]
      refine ⟨trivial, ?_⟩
      push_cast
      ring

/-- **C5 (amended).** Each Increase-phase cycle emits one synthetic
accel press, with next phase Hold exactly when the displayed set-speed
has reached or crossed the stored target or the incremented press
counter exceeds the cap 5; each Decrease-phase cycle emits one decel
press, with next phase Hold exactly when the displayed set-speed has
reached or crossed the target, *or has fallen to or below the
platform's minimum settable speed*, or the incremented counter exceeds
5.  In the idealized settle scenario (each press moves the displayed
set-speed by `step` before the next cycle), starting Idle with target
`target` above the displayed speed `v0` and with
`m = ⌈(target - v0)/step⌉` presses needed, the emulator is still in
Increase throughout the first `min (m+1) 6 - 1` press cycles and
reaches Hold on press cycle `min (m+1) 6` — i.e. within
`⌈(T-V)/step⌉ + 1` cycles or *six* presses (the counter must exceed 5),
not the five presses stated in the claim. -/
theorem button_emulator_reaches_hold (target step vmin v0 : ℤ) (m : ℕ)
    (hTV : v0 < target) (hm : target ≤ v0 + (m : ℤ) * step)
    (hmin : ∀ j : ℕ, j < m → v0 + (j : ℤ) * step < target) :
    (∀ (s : BtnState) (tgt vSet : ℤ), s.buttonType = 1 →
      (btnStep tgt vSet s).2 = some 1 ∧
      ((btnStep tgt vSet s).1.buttonType = 3 ↔
        (s.targetSpeed ≤ vSet ∨ 5 < s.buttonCount + 1))) ∧
    (∀ (s : BtnState) (tgt vSet : ℤ), s.buttonType = 2 →
      (btnStep tgt vSet s).2 = some 2 ∧
      ((btnStep tgt vSet s).1.buttonType = 3 ↔
        (vSet ≤ s.targetSpeed ∨ vSet ≤ s.vCruiseMin ∨ 5 < s.buttonCount + 1))) ∧
    (∀ j : ℕ, j + 1 ≤ min (m + 1) 6 →
      (btnScenarioRun target step vmin v0 (1 + j)).1.buttonType = 1) ∧
    (btnScenarioRun target step vmin v0 (1 + min (m + 1) 6)).1.buttonType = 3 := by
  have hm1 : 1 ≤ m := by
    by_contra h0
    have hm0 : m = 0 := by omega
    rw [hm0] at hm
    push_cast at hm
    omega
  refine ⟨?_, ?_, ?_, ?_⟩
  · rintro ⟨bt, bc, ts, vm, ti⟩ tgt vSet hbt
    simp only at hbt
    subst hbt
    simp only [btnStep]
    by_cases h1 : ts ≤ vSet
    · rw [if_pos h1]
      simp [h1]
    · rw [if_neg h1]
      by_cases h2 : 5 < bc + 1
      · rw [if_pos h2]
        simp [h1, h2]
      · rw [if_neg h2]
        simp [h1, h2]
  · rintro ⟨bt, bc, ts, vm, ti⟩ tgt vSet hbt
    simp only at hbt
    subst hbt
    simp only [btnStep]
    by_cases h1 : ts ≥ vSet ∨ vSet ≤ vm
    · rw [if_pos h1]
      refine ⟨rfl, ?_⟩
      constructor
      · intro _
        rcases h1 with h | h
        · exact Or.inl h
        · exact Or.inr (Or.inl h)
      · intro _
        rfl
    · rw [if_neg h1]
      push_neg at h1
      by_cases h2 : 5 < bc + 1
      · rw [if_pos h2]
        exact ⟨rfl, ⟨fun _ => Or.inr (Or.inr h2), fun _ => rfl⟩⟩
      · rw [if_neg h2]
        refine ⟨rfl, ?_⟩
        constructor
        · intro h3
          simp at h3
        · intro h3
          rcases h3 with h | h | h
          · exact absurd h (not_le.mpr h1.1)
          · exact absurd h (not_le.mpr h1.2)
          · exact absurd h h2
  · intro j hj
    rw [btnScenario_increase_invariant target step vmin v0 m hTV hmin j hj]
  · have hlast : min (m + 1) 6 = (min (m + 1) 6 - 1) + 1 := by omega
    have hinv := btnScenario_increase_invariant target step vmin v0 m hTV hmin
      (min (m + 1) 6 - 1) (by omega)
    have hshow : (1 : ℕ) + min (m + 1) 6 = (1 + (min (m + 1) 6 - 1)) + 1 := by omega
    rw [hshow, btnScenarioRun, hinv]
    rcases le_or_lt (m + 1) 6 with h6 | h6
    · have hmm : min (m + 1) 6 - 1 = m := by omega
      rw [hmm]
      simp only [btnStep]
      rw [if_pos hm]
    · have hmm : min (m + 1) 6 - 1 = 5 := by omega
      rw [hmm]
      simp only [btnStep]
      rw [if_neg (not_le.mpr (hmin 5 (by omega))), if_pos (by omega)]

/-- Witness for `button_emulator_reaches_hold`: target 10, displayed
speed 0, step 5 — two presses needed, Hold on the third press cycle
(fourth cycle including the Idle dispatch). -/
theorem button_emulator_reaches_hold_witness :
    (btnScenarioRun 10 5 0 0 (1 + min (2 + 1) 6)).1.buttonType = 3 :=
  (button_emulator_reaches_hold 10 5 0 0 2 (by norm_num) (by norm_num)
    (by intro j hj; interval_cases j <;> norm_num)).2.2.2

/-- **C5 counterexample.** Two refutations of the claim as stated.
First, target 10, displayed speed 0, display step 1:
`⌈(T-V)/step⌉ + 1 = 11`, so the claim's "within ... or the 5-press cap,
whichever is smaller" predicts Hold within 5 press cycles; but after the
Idle cycle plus 5 press cycles the emulator is still in Increase, and
Hold is only reached on the 6th press cycle (the counter must *exceed*
5, so the cap costs six presses).  Second, a Decrease cycle with stored
target 40, displayed set-speed 50 and minimum settable speed 50 (the
state reached after one press from `v_set = 51`) transitions to Hold
although the set-speed has not reached or crossed the target and the
counter (2) does not exceed 5 — `type_2` has the extra
`v_set_dis <= v_cruise_min` trigger, so the claimed "transitions to
Hold exactly when ..." is false for Decrease. -/
theorem button_emulator_cap_counterexample :
    ((btnScenarioRun 10 1 0 0 6).1.buttonType = 1 ∧
      (btnScenarioRun 10 1 0 0 7).1.buttonType = 3) ∧
    ((btnStep 40 50 ⟨2, 1, 40, 50, 7⟩).1.buttonType = 3 ∧
      ¬ ((40 : ℤ) ≥ 50) ∧ ¬ (5 < 1 + 1)) := by
  refine ⟨⟨by decide, by decide⟩, by decide, by decide, by decide⟩

/-! ## Lead-distance-bar "just changed" flag (`CarController.update`) -/

/-- Modelled from the spec: the ACC HUD message cadence `ACC_HUD_STEP`
comes from `values.py`, which is not under `src/`; `src` lists the MEB
ACC HUD message `MEB_ACC_01` at 17 Hz, i.e. every 6th 100 Hz control
frame. -/
def ACC_HUD_STEP : Nat := 6

/-- Persistent state: `self.lead_distance_bar_timer` and
`self.lead_distance_bars_last` (initially `None`). -/
structure LeadBarState where
  timer : Nat
  barsLast : Option ℤ
deriving DecidableEq, Repr

/-- The lead-distance-bar bookkeeping of one `CarController.update` call
for the MEB variant with openpilot longitudinal control
(`carcontroller.py:253-254` timer tick, `261-265` change detection and
flag, `316` unconditional refresh of `lead_distance_bars_last`):
`frame` is `self.frame` and `bars` this frame's
`hud_control.leadDistanceBars`; the second component is the
`change_distance_bar` flag sent in the ACC HUD message, `none` on
non-HUD frames. -/
def leadBarStep (frame : Nat) (bars : ℤ) (s : LeadBarState) : LeadBarState × Option Bool :=
  let t1 := if frame % 100 = 0 ∧ s.timer ≤ 3 then s.timer + 1 else s.timer
  if frame % ACC_HUD_STEP = 0 then
    let t2 := if s.barsLast ≠ some bars then 0 else t1
    (⟨t2, some bars⟩, some (decide (t2 ≤ 3)))
  else
    (⟨t1, some bars⟩, none)

/-- Controller run from start-up over the per-frame bars input:
state after processing frames `0 .. n-1`. -/
def leadBarRun (bars : Nat → ℤ) : Nat → LeadBarState
  | 0 => ⟨0, none⟩
  | n + 1 => (leadBarStep n (bars n) (leadBarRun bars n)).1

/-- The flag emitted while processing frame `n`. -/
def leadBarFlag (bars : Nat → ℤ) (n : Nat) : Option Bool :=
  (leadBarStep n (bars n) (leadBarRun bars n)).2

/-- Bars input constant at 2: the setting "changes" (from unset) on
start-up frame 0, which is an ACC HUD frame. -/
def barsConstTwo : Nat → ℤ := fun _ => 2

/-- Bars input that changes from 2 to 3 on frame 601, which is neither a
HUD frame (601 % 6 = 1) nor a timer frame (601 % 100 = 1), long after
the start-up window has expired. -/
def barsLateChange : Nat → ℤ := fun f => if f < 601 then 2 else 3

lemma leadBarFlag_hud (bars : Nat → ℤ) (n : Nat) (hn : n % ACC_HUD_STEP = 0) :
    leadBarFlag bars n = some (decide ((leadBarRun bars (n + 1)).timer ≤ 3)) := by
  show (leadBarStep n (bars n) (leadBarRun bars n)).2 =
    some (decide ((leadBarStep n (bars n) (leadBarRun bars n)).1.timer ≤ 3))
  rw [leadBarStep]
  simp only [if_pos hn]

lemma leadBarRun_twos (bars : Nat → ℤ) :
    ∀ n : Nat, (∀ k, k ≤ n → bars k = 2) →
      leadBarRun bars (n + 1) = ⟨min (n / 100) 4, some 2⟩ := by
  intro n
  induction n with
  | zero =>
      intro hb
      show (leadBarStep 0 (bars 0) ⟨0, none⟩).1 = _
      rw [hb 0 le_rfl]
      simp [leadBarStep, ACC_HUD_STEP]
  | succ n ih =>
      intro hb
      have hstate := ih (fun k hk => hb k (by omega))
      show (leadBarStep (n + 1) (bars (n + 1)) (leadBarRun bars (n + 1))).1 = _
      rw [hstate, hb (n + 1) le_rfl, leadBarStep]
      simp only [ne_eq, not_true_eq_false, if_false]
      have htimer : (if (n + 1) % 100 = 0 ∧ min (n / 100) 4 ≤ 3
          then min (n / 100) 4 + 1 else min (n / 100) 4) = min ((n + 1) / 100) 4 := by
        split_ifs with h
        · omega
        · omega
      rw [htimer]
      split_ifs with hhud
      · rfl
      · rfl

lemma leadBarRun_lateChange_tail :
    ∀ k : Nat, leadBarRun barsLateChange (602 + k) = ⟨4, some 3⟩ := by
  intro k
  induction k with
  | zero =>
      have h601 : leadBarRun barsLateChange 601 = ⟨4, some 2⟩ := by
        have h := leadBarRun_twos barsLateChange 600
          (fun k hk => by simp only [barsLateChange]; rw [if_pos (by omega)])
        have hmin : min (600 / 100) 4 = 4 := by omega
        rw [hmin] at h
        exact h
      show (leadBarStep 601 (barsLateChange 601) (leadBarRun barsLateChange 601)).1 = _
      have hbars : barsLateChange 601 = 3 := by
        simp only [barsLateChange]
        rw [if_neg (by omega)]
      rw [h601, hbars, leadBarStep]
      have hhud : ¬ ((601 : Nat) % ACC_HUD_STEP = 0) := by
        rw [ACC_HUD_STEP]
        omega
      rw [if_neg hhud]
      have ht1 : ¬ ((601 : Nat) % 100 = 0 ∧ (4 : Nat) ≤ 3) := by omega
      simp only [if_neg ht1]
  | succ k ih =>
      show (leadBarStep (602 + k) (barsLateChange (602 + k))
        (leadBarRun barsLateChange (602 + k))).1 = _
      rw [ih]
      have hbars : barsLateChange (602 + k) = 3 := by
        simp only [barsLateChange]
        rw [if_neg (by omega)]
      rw [hbars, leadBarStep]
      simp only [ne_eq, not_true_eq_false, if_false]
      have h43 : ¬ ((602 + k) % 100 = 0 ∧ 4 ≤ 3) := by omega
      rw [if_neg h43]
      split_ifs <;> rfl

lemma leadBarRun_after_change (bars : Nat → ℤ) (f0 : Nat)
    (hhud : f0 % ACC_HUD_STEP = 0)
    (hchg : (leadBarRun bars f0).barsLast ≠ some (bars f0)) :
    ∀ (n : Nat), f0 ≤ n → (∀ k, f0 ≤ k → k ≤ n → bars k = bars f0) →
      leadBarRun bars (n + 1) = ⟨min (n / 100 - f0 / 100) 4, some (bars f0)⟩ := by
  intro n hn
  induction n, hn using Nat.le_induction with
  | base =>
      intro _
      show (leadBarStep f0 (bars f0) (leadBarRun bars f0)).1 = _
      rw [leadBarStep]
      simp only [if_pos hhud, if_pos hchg]
      have hmin : min (f0 / 100 - f0 / 100) 4 = 0 := by omega
      rw [hmin]
  | succ n hn ih =>
      intro hconst
      have hstate := ih (fun k hk1 hk2 => hconst k hk1 (by omega))
      have hbars : bars (n + 1) = bars f0 := hconst (n + 1) (by omega) le_rfl
      show (leadBarStep (n + 1) (bars (n + 1)) (leadBarRun bars (n + 1))).1 = _
      rw [hstate, hbars, leadBarStep]
      simp only [ne_eq, not_true_eq_false, if_false]
      have htimer : (if (n + 1) % 100 = 0 ∧ min (n / 100 - f0 / 100) 4 ≤ 3
          then min (n / 100 - f0 / 100) 4 + 1 else min (n / 100 - f0 / 100) 4) =
          min ((n + 1) / 100 - f0 / 100) 4 := by
        split_ifs with h
        · omega
        · omega
      rw [htimer]
      split_ifs with hhud2
      · rfl
      · rfl

lemma leadBarRun_saturated (bars : Nat → ℤ) (c : Nat)
    (hc : ¬ (c % ACC_HUD_STEP = 0)) (hsat : (leadBarRun bars c).timer = 4)
    (hconst : ∀ k, c ≤ k → bars k = bars c) :
    ∀ m : Nat, leadBarRun bars (c + 1 + m) = ⟨4, some (bars c)⟩ := by
  intro m
  induction m with
  | zero =>
      show (leadBarStep c (bars c) (leadBarRun bars c)).1 = _
      rw [leadBarStep]
      rw [if_neg hc]
      have ht1 : ¬ (c % 100 = 0 ∧ (leadBarRun bars c).timer ≤ 3) := by
        rw [hsat]
        omega
      simp only [if_neg ht1, hsat]
      rw [if_neg (show ¬ (c % 100 = 0 ∧ (4 : Nat) ≤ 3) by omega)]
  | succ m ih =>
      show (leadBarStep (c + 1 + m) (bars (c + 1 + m)) (leadBarRun bars (c + 1 + m))).1 = _
      rw [ih, hconst (c + 1 + m) (by omega), leadBarStep]
      simp only [ne_eq, not_true_eq_false, if_false]
      have ht1 : ¬ ((c + 1 + m) % 100 = 0 ∧ (4 : Nat) ≤ 3) := by omega
      rw [if_neg ht1]
      split_ifs <;> rfl

/-- **C9 (amended).** For every bars input sequence: (1) after a bars
change observed on an ACC HUD frame `f0` (the stored previous setting
differs from this frame's), the flag emitted on any later HUD frame `f`
with no further change in between is true exactly while
`f/100 - f0/100 ≤ 3`, i.e. during the window of *four* 100-frame timer
display cycles straddling the change (301-400 frames depending on the
change's phase relative to the timer), not three, and false thereafter
until the next observed change; and (2) a change occurring on a non-HUD
frame while the timer is saturated at 4 is never observed —
`lead_distance_bars_last` is refreshed every frame — so every later HUD
frame emits a false flag: the change produces no true window at all. -/
theorem lead_bar_flag_window :
    (∀ (bars : Nat → ℤ) (f0 f : Nat), f0 % ACC_HUD_STEP = 0 →
      (leadBarRun bars f0).barsLast ≠ some (bars f0) →
      f0 ≤ f → (∀ k, f0 ≤ k → k ≤ f → bars k = bars f0) →
      f % ACC_HUD_STEP = 0 →
      leadBarFlag bars f = some (decide (f / 100 - f0 / 100 ≤ 3))) ∧
    (∀ (bars : Nat → ℤ) (c : Nat), ¬ (c % ACC_HUD_STEP = 0) →
      (leadBarRun bars c).timer = 4 →
      (∀ k, c ≤ k → bars k = bars c) →
      ∀ f : Nat, c < f → f % ACC_HUD_STEP = 0 →
      leadBarFlag bars f = some false) := by
  constructor
  · intro bars f0 f hhud hchg hle hconst hf
    rw [leadBarFlag_hud bars f hf]
    rw [leadBarRun_after_change bars f0 hhud hchg f hle hconst]
    simp only [Option.some.injEq, decide_eq_decide]
    omega
  · intro bars c hc hsat hconst f hcf hf
    rw [leadBarFlag_hud bars f hf]
    obtain ⟨m, hm⟩ : ∃ m, f + 1 = c + 1 + m := ⟨f - c, by omega⟩
    rw [hm, leadBarRun_saturated bars c hc hsat hconst m]
    rfl

/-- Witness for `lead_bar_flag_window`: the constant-bars run has its
change observed at HUD frame 0, and 300 frames later (fourth display
cycle) the flag is still emitted true; the late-change run changes bars
on non-HUD frame 601 with the timer saturated, and HUD frame 606 emits
a false flag. -/
theorem lead_bar_flag_window_witness :
    leadBarFlag barsConstTwo 300 = some (decide ((300 : Nat) / 100 - 0 / 100 ≤ 3)) ∧
    leadBarFlag barsLateChange 606 = some false := by
  constructor
  · exact lead_bar_flag_window.1 barsConstTwo 0 300 (by decide) (by decide) (by omega)
      (fun k _ _ => rfl) (by decide)
  · refine lead_bar_flag_window.2 barsLateChange 601 (by decide) ?_ ?_ 606 (by omega)
      (by decide)
    · have h := leadBarRun_twos barsLateChange 600
        (fun k hk => by simp only [barsLateChange]; rw [if_pos (by omega)])
      have hmin : min ((600 : Nat) / 100) 4 = 4 := by omega
      show (leadBarRun barsLateChange (600 + 1)).timer = 4
      rw [h]
      exact hmin
    · intro k hk
      simp only [barsLateChange]
      rw [if_neg (by omega), if_neg (by omega)]

/-- **C9 counterexample.** In the constant-bars run the only change is
observed at frame 0, yet at HUD frame 300 — more than three 100-frame
display cycles later — the emitted flag is still true (the timer gate
`timer ≤ 3` spans four cycles); and in the late-change run the setting
changes at frame 601 but the flag emitted at the next HUD frames (e.g.
606) is false, i.e. no true window follows that change at all. -/
theorem lead_bar_flag_three_cycle_claim_false :
    leadBarFlag barsConstTwo 300 = some true ∧
    leadBarFlag barsLateChange 606 = some false := by
  constructor
  · rw [leadBarFlag_hud barsConstTwo 300 (by decide)]
    rw [leadBarRun_twos barsConstTwo 300 (fun k _ => rfl)]
    rfl
  · rw [leadBarFlag_hud barsLateChange 606 (by decide)]
    have hrun : leadBarRun barsLateChange 607 = ⟨4, some 3⟩ := by
      have := leadBarRun_lateChange_tail 5
      simpa using this
    rw [hrun]
    rfl

/-! ## MEB radar interface (`RadarInterface._update`) -/

/-- One of the six `MEB_Distance_01` signal parts
(`Same_Lane_01/02`, `Left_Lane_01/02`, `Right_Lane_01/02`): object id
plus the longitudinal/lateral distances and relative velocity. The
`aRel`/`yvRel` outputs are constant NaN floats in the source and are
omitted. -/
structure RadarSlot where
  objectId : ℤ
  longDistance : ℚ
  latDistance : ℚ
  relVelo : ℚ
deriving DecidableEq, Repr

/-- Association-list lookup by key, first match winning — the access
discipline of the Python dicts used by the radar interface. -/
def lookupZ {β : Type} (k : ℤ) : List (ℤ × β) → Option β
  | [] => none
  | p :: rest => if p.1 = k then some p.2 else lookupZ k rest

/-- The non-zero object ids of a frame, in slot order. -/
def slotIds (slots : List RadarSlot) : List ℤ :=
  (slots.map (fun s => s.objectId)).filter (fun i => i ≠ 0)

/-- The collection loop over the signal parts
(`radar_interface.py:64-85`): gather the data of each non-zero object
id in slot order into an insertion-ordered map, failing (`none`, the
`canError` early return) on a duplicate non-zero id. -/
def collectActive : List RadarSlot → List (ℤ × RadarSlot) → Option (List (ℤ × RadarSlot))
  | [], acc => some acc
  | s :: rest, acc =>
      if s.objectId = 0 then collectActive rest acc
      else if (lookupZ s.objectId acc).isSome then none
      else collectActive rest (acc ++ [(s.objectId, s)])

/-- One tracked radar point (`car.RadarData.RadarPoint`), restricted to
the fields the interface writes (NaN-valued fields omitted). -/
structure RadarPoint where
  trackId : Nat
  dRel : ℚ
  yRel : ℚ
  vRel : ℚ
  measured : Bool
deriving DecidableEq, Repr

/-- Persistent tracking state: `self.pts` (insertion-ordered dict) and
the fresh-id counter `self.track_id`. -/
structure RadarTracks where
  pts : List (ℤ × RadarPoint)
  trackId : Nat
deriving DecidableEq, Repr

/-- Overwrite the entry of key `id` with point `p` (Python
`self.pts[object_id].field = ...` on an existing key). -/
def replaceEntry (id : ℤ) (p : RadarPoint) (pts : List (ℤ × RadarPoint)) :
    List (ℤ × RadarPoint) :=
  pts.map (fun q => if q.1 = id then (id, p) else q)

/-- The body of the tracking loop (`radar_interface.py:88-99`) for one
active object id: update the existing point's data fields (track id
kept), or create a new point with the fresh track id and bump the
counter. -/
def applyOne (id : ℤ) (d : RadarSlot) (st : RadarTracks) : RadarTracks :=
  match lookupZ id st.pts with
  | some p =>
      ⟨replaceEntry id ⟨p.trackId, d.longDistance, d.latDistance, d.relVelo, true⟩ st.pts,
       st.trackId⟩
  | none =>
      ⟨st.pts ++ [(id, ⟨st.trackId, d.longDistance, d.latDistance, d.relVelo, true⟩)],
       st.trackId + 1⟩

/-- The tracking loop over all collected active objects, in insertion
order. -/
def applyActive : List (ℤ × RadarSlot) → RadarTracks → RadarTracks
  | [], st => st
  | (id, d) :: rest, st => applyActive rest (applyOne id d st)

/-- The per-tick output of `_update`: `ret.errors` and `ret.points`. -/
structure RadarOutput where
  errors : List String
  points : List RadarPoint
deriving DecidableEq, Repr

/-- `RadarInterface._update` (`radar_interface.py:51-108`): on an
invalid bus or a duplicate non-zero object id, return a `canError`
output with the tracking state untouched; otherwise update/create the
points of the frame's ids, drop the ids absent from the frame, and
return the tracked points. -/
def radarUpdate (canValid : Bool) (slots : List RadarSlot) (st : RadarTracks) :
    RadarTracks × RadarOutput :=
  if canValid = false then (st, ⟨["canError"], []⟩)
  else
    match collectActive slots [] with
    | none => (st, ⟨["canError"], []⟩)
    | some active =>
        let st1 := applyActive active st
        let pts2 := st1.pts.filter (fun q => (lookupZ q.1 active).isSome)
        (⟨pts2, st1.trackId⟩, ⟨[], pts2.map (fun q => q.2)⟩)

/-- Well-formedness of the tracking state: pairwise distinct track ids,
all below the fresh-id counter, and distinct keys. -/
def RadarInv (st : RadarTracks) : Prop :=
  (st.pts.map (fun q => q.2.trackId)).Nodup ∧
  (∀ t ∈ st.pts.map (fun q => q.2.trackId), t < st.trackId) ∧
  (st.pts.map Prod.fst).Nodup

lemma lookupZ_isSome_iff {β : Type} (k : ℤ) (l : List (ℤ × β)) :
    (lookupZ k l).isSome = true ↔ k ∈ l.map Prod.fst := by
  induction l with
  | nil => simp [lookupZ]
  | cons p rest ih =>
      by_cases hp : p.1 = k
      · simp [lookupZ, hp]
      · simp only [lookupZ, if_neg hp, List.map_cons, List.mem_cons, ih]
        constructor
        · exact fun h => Or.inr h
        · rintro (h | h)
          · exact absurd h.symm hp
          · exact h

lemma lookupZ_append_single {β : Type} (k k2 : ℤ) (v : β) (l : List (ℤ × β)) :
    (lookupZ k (l ++ [(k2, v)])).isSome =
      ((lookupZ k l).isSome || decide (k2 = k)) := by
  induction l with
  | nil => by_cases h : k2 = k <;> simp [lookupZ, h]
  | cons p rest ih =>
      by_cases hp : p.1 = k
      · simp [lookupZ, hp]
      · simp only [List.cons_append, lookupZ, if_neg hp]
        exact ih

lemma slotIds_cons_zero (s : RadarSlot) (rest : List RadarSlot) (h : s.objectId = 0) :
    slotIds (s :: rest) = slotIds rest := by
  simp only [slotIds, List.map_cons, List.filter_cons]
  rw [if_neg (by simp [h])]

lemma slotIds_cons_nonzero (s : RadarSlot) (rest : List RadarSlot) (h : s.objectId ≠ 0) :
    slotIds (s :: rest) = s.objectId :: slotIds rest := by
  simp only [slotIds, List.map_cons, List.filter_cons]
  rw [if_pos (by simp [h])]

lemma collectActive_isSome_iff (slots : List RadarSlot) :
    ∀ acc : List (ℤ × RadarSlot),
      (collectActive slots acc).isSome = true ↔
        ((slotIds slots).Nodup ∧
          ∀ x ∈ slotIds slots, (lookupZ x acc).isSome = false) := by
  induction slots with
  | nil =>
      intro acc
      simp [collectActive, slotIds]
  | cons s rest ih =>
      intro acc
      by_cases h0 : s.objectId = 0
      · rw [slotIds_cons_zero s rest h0]
        simp only [collectActive, if_pos h0]
        exact ih acc
      · rw [slotIds_cons_nonzero s rest h0]
        simp only [collectActive, if_neg h0]
        by_cases hmem : (lookupZ s.objectId acc).isSome = true
        · rw [if_pos hmem]
          constructor
          · intro hc
            exact absurd hc (by simp)
          · rintro ⟨_, hall⟩
            have hx := hall s.objectId (List.mem_cons.mpr (Or.inl rfl))
            rw [hmem] at hx
            exact absurd hx (by simp)
        · rw [if_neg hmem]
          rw [ih (acc ++ [(s.objectId, s)])]
          have hacc : (lookupZ s.objectId acc).isSome = false :=
            Bool.not_eq_true _ ▸ (Bool.eq_false_iff.mpr (by
              intro hc; exact hmem hc))
          constructor
          · rintro ⟨hnd, hall⟩
            have hnotmem : s.objectId ∉ slotIds rest := by
              intro hin
              have := hall s.objectId hin
              rw [lookupZ_append_single] at this
              simp at this
            refine ⟨List.nodup_cons.mpr ⟨hnotmem, hnd⟩, ?_⟩
            intro x hx
            rcases List.mem_cons.mp hx with hx | hx
            · rw [hx]; exact hacc
            · have := hall x hx
              rw [lookupZ_append_single] at this
              simp only [Bool.or_eq_false_iff] at this
              exact this.1
          · rintro ⟨hnd, hall⟩
            obtain ⟨hnotmem, hnd'⟩ := List.nodup_cons.mp hnd
            refine ⟨hnd', ?_⟩
            intro x hx
            rw [lookupZ_append_single]
            have h1 := hall x (List.mem_cons.mpr (Or.inr hx))
            have h2 : s.objectId ≠ x := by
              intro hcontra
              rw [hcontra] at hnotmem
              exact hnotmem hx
            simp [h1, h2]

lemma collectActive_keys (slots : List RadarSlot) :
    ∀ (acc l : List (ℤ × RadarSlot)), collectActive slots acc = some l →
      l.map Prod.fst = acc.map Prod.fst ++ slotIds slots := by
  induction slots with
  | nil =>
      intro acc l h
      simp only [collectActive, Option.some.injEq] at h
      rw [← h]
      simp [slotIds]
  | cons s rest ih =>
      intro acc l h
      by_cases h0 : s.objectId = 0
      · rw [slotIds_cons_zero s rest h0]
        simp only [collectActive, if_pos h0] at h
        exact ih acc l h
      · rw [slotIds_cons_nonzero s rest h0]
        simp only [collectActive, if_neg h0] at h
        by_cases hmem : (lookupZ s.objectId acc).isSome = true
        · rw [if_pos hmem] at h
          exact absurd h (by simp)
        · rw [if_neg hmem] at h
          have := ih (acc ++ [(s.objectId, s)]) l h
          rw [this]
          simp


lemma replaceEntry_keys (id : ℤ) (p : RadarPoint) (pts : List (ℤ × RadarPoint)) :
    (replaceEntry id p pts).map Prod.fst = pts.map Prod.fst := by
  induction pts with
  | nil => rfl
  | cons q rest ih =>
      simp only [replaceEntry, List.map_cons] at ih ⊢
      by_cases hq : q.1 = id
      · rw [if_pos hq, ih]
        simp [hq]
      · rw [if_neg hq, ih]

lemma replaceEntry_not_mem (id : ℤ) (p : RadarPoint) (pts : List (ℤ × RadarPoint))
    (h : id ∉ pts.map Prod.fst) : replaceEntry id p pts = pts := by
  induction pts with
  | nil => rfl
  | cons q rest ih =>
      simp only [List.map_cons, List.mem_cons] at h
      push_neg at h
      simp only [replaceEntry, List.map_cons]
      rw [if_neg (fun hc => h.1 hc.symm)]
      have hrest := ih h.2
      simp only [replaceEntry] at hrest
      rw [hrest]

lemma replaceEntry_trackIds (id : ℤ) (p : RadarPoint) (pts : List (ℤ × RadarPoint))
    (hkeys : (pts.map Prod.fst).Nodup) (q0 : RadarPoint)
    (hlook : lookupZ id pts = some q0) (htid : p.trackId = q0.trackId) :
    (replaceEntry id p pts).map (fun q => q.2.trackId) =
      pts.map (fun q => q.2.trackId) := by
  induction pts with
  | nil => rfl
  | cons q rest ih =>
      simp only [List.map_cons, List.nodup_cons] at hkeys
      by_cases hq : q.1 = id
      · rw [lookupZ, if_pos hq] at hlook
        have hq0 : q.2 = q0 := by injection hlook
        simp only [replaceEntry, List.map_cons, if_pos hq]
        have hrest : replaceEntry id p rest = rest := by
          apply replaceEntry_not_mem
          rw [← hq]
          exact hkeys.1
        simp only [replaceEntry] at hrest
        rw [hrest, htid, hq0]
      · rw [lookupZ, if_neg hq] at hlook
        simp only [replaceEntry, List.map_cons, if_neg hq]
        have hrest := ih hkeys.2 hlook
        simp only [replaceEntry] at hrest
        rw [hrest]

lemma lookupZ_replaceEntry_other (id k : ℤ) (p : RadarPoint)
    (pts : List (ℤ × RadarPoint)) (h : k ≠ id) :
    lookupZ k (replaceEntry id p pts) = lookupZ k pts := by
  induction pts with
  | nil => rfl
  | cons q rest ih =>
      simp only [replaceEntry, List.map_cons] at ih ⊢
      by_cases hq : q.1 = id
      · rw [if_pos hq, lookupZ, lookupZ, if_neg (fun hc => h hc.symm), if_neg (by
          rw [hq]; exact fun hc => h hc.symm)]
        exact ih
      · rw [if_neg hq, lookupZ, lookupZ]
        by_cases hk : q.1 = k
        · rw [if_pos hk, if_pos hk]
        · rw [if_neg hk, if_neg hk]
          exact ih

lemma lookupZ_append_other {β : Type} (k k2 : ℤ) (v : β) (l : List (ℤ × β))
    (h : k2 ≠ k) : lookupZ k (l ++ [(k2, v)]) = lookupZ k l := by
  induction l with
  | nil => simp [lookupZ, h]
  | cons p rest ih =>
      simp only [List.cons_append, lookupZ]
      by_cases hp : p.1 = k
      · rw [if_pos hp, if_pos hp]
      · rw [if_neg hp, if_neg hp]
        exact ih

lemma lookupZ_append_self {β : Type} (k : ℤ) (v : β) (l : List (ℤ × β))
    (h : lookupZ k l = none) : lookupZ k (l ++ [(k, v)]) = some v := by
  induction l with
  | nil => simp [lookupZ]
  | cons p rest ih =>
      rw [lookupZ] at h
      by_cases hp : p.1 = k
      · rw [if_pos hp] at h
        exact absurd h (by simp)
      · rw [if_neg hp] at h
        simp only [List.cons_append, lookupZ, if_neg hp]
        exact ih h

lemma applyOne_of_some (id : ℤ) (d : RadarSlot) (st : RadarTracks) (p : RadarPoint)
    (h : lookupZ id st.pts = some p) :
    applyOne id d st =
      ⟨replaceEntry id ⟨p.trackId, d.longDistance, d.latDistance, d.relVelo, true⟩ st.pts,
       st.trackId⟩ := by
  unfold applyOne
  rw [h]

lemma applyOne_of_none (id : ℤ) (d : RadarSlot) (st : RadarTracks)
    (h : lookupZ id st.pts = none) :
    applyOne id d st =
      ⟨st.pts ++ [(id, ⟨st.trackId, d.longDistance, d.latDistance, d.relVelo, true⟩)],
       st.trackId + 1⟩ := by
  unfold applyOne
  rw [h]

lemma applyOne_trackId_mono (id : ℤ) (d : RadarSlot) (st : RadarTracks) :
    st.trackId ≤ (applyOne id d st).trackId := by
  cases h : lookupZ id st.pts with
  | some p => rw [applyOne_of_some id d st p h]
  | none =>
      rw [applyOne_of_none id d st h]
      exact Nat.le_succ _

lemma applyOne_keys_mem (id : ℤ) (d : RadarSlot) (st : RadarTracks) (x : ℤ) :
    x ∈ (applyOne id d st).pts.map Prod.fst ↔
      x ∈ st.pts.map Prod.fst ∨ x = id := by
  cases h : lookupZ id st.pts with
  | some p =>
      rw [applyOne_of_some id d st p h]
      show x ∈ (replaceEntry id _ st.pts).map Prod.fst ↔ _
      rw [replaceEntry_keys]
      have hid : id ∈ st.pts.map Prod.fst := by
        rw [← lookupZ_isSome_iff, h]
        rfl
      constructor
      · exact fun hx => Or.inl hx
      · rintro (hx | hx)
        · exact hx
        · rw [hx]; exact hid
  | none =>
      rw [applyOne_of_none id d st h]
      show x ∈ (st.pts ++ _).map Prod.fst ↔ _
      rw [List.map_append]
      simp

lemma applyOne_lookup_other (id k : ℤ) (d : RadarSlot) (st : RadarTracks)
    (h : k ≠ id) : lookupZ k (applyOne id d st).pts = lookupZ k st.pts := by
  cases hl : lookupZ id st.pts with
  | some p =>
      rw [applyOne_of_some id d st p hl]
      exact lookupZ_replaceEntry_other id k _ st.pts h
  | none =>
      rw [applyOne_of_none id d st hl]
      exact lookupZ_append_other k id _ st.pts (fun hc => h hc.symm)

lemma applyOne_inv (id : ℤ) (d : RadarSlot) (st : RadarTracks)
    (hinv : RadarInv st) : RadarInv (applyOne id d st) := by
  obtain ⟨htids, hbound, hkeys⟩ := hinv
  cases hl : lookupZ id st.pts with
  | some p =>
      rw [applyOne_of_some id d st p hl]
      have hmap := replaceEntry_trackIds id
        ⟨p.trackId, d.longDistance, d.latDistance, d.relVelo, true⟩ st.pts hkeys p hl rfl
      refine ⟨?_, ?_, ?_⟩
      · show ((replaceEntry id _ st.pts).map _).Nodup
        rw [hmap]
        exact htids
      · intro t ht
        rw [hmap] at ht
        exact hbound t ht
      · show ((replaceEntry id _ st.pts).map Prod.fst).Nodup
        rw [replaceEntry_keys]
        exact hkeys
  | none =>
      rw [applyOne_of_none id d st hl]
      refine ⟨?_, ?_, ?_⟩
      · show ((st.pts ++ _).map _).Nodup
        rw [List.map_append, List.nodup_append]
        refine ⟨htids, by simp, ?_⟩
        intro t ht ht2
        simp only [List.map_cons, List.map_nil, List.mem_singleton] at ht2
        rw [ht2] at ht
        exact absurd rfl (Nat.ne_of_lt (hbound _ ht))
      · intro t ht
        rw [List.map_append] at ht
        rcases List.mem_append.mp ht with h | h
        · exact Nat.lt_succ_of_lt (hbound t h)
        · simp only [List.map_cons, List.map_nil, List.mem_singleton] at h
          rw [h]
          exact Nat.lt_succ_self _
      · show ((st.pts ++ _).map Prod.fst).Nodup
        rw [List.map_append, List.nodup_append]
        refine ⟨hkeys, by simp, ?_⟩
        intro k hk hk2
        simp only [List.map_cons, List.map_nil, List.mem_singleton] at hk2
        rw [hk2] at hk
        rw [← lookupZ_isSome_iff, hl] at hk
        exact absurd hk (by simp)

lemma applyOne_fresh (id : ℤ) (d : RadarSlot) (st : RadarTracks)
    (h : lookupZ id st.pts = none) :
    lookupZ id (applyOne id d st).pts =
      some ⟨st.trackId, d.longDistance, d.latDistance, d.relVelo, true⟩ := by
  rw [applyOne_of_none id d st h]
  exact lookupZ_append_self id _ st.pts h

lemma applyActive_trackId_mono (a : List (ℤ × RadarSlot)) :
    ∀ st : RadarTracks, st.trackId ≤ (applyActive a st).trackId := by
  induction a with
  | nil => intro st; exact le_rfl
  | cons e rest ih =>
      intro st
      obtain ⟨id, d⟩ := e
      rw [applyActive]
      exact le_trans (applyOne_trackId_mono id d st) (ih _)

lemma applyActive_keys_mem (a : List (ℤ × RadarSlot)) :
    ∀ (st : RadarTracks) (x : ℤ),
      x ∈ (applyActive a st).pts.map Prod.fst ↔
        x ∈ st.pts.map Prod.fst ∨ x ∈ a.map Prod.fst := by
  induction a with
  | nil =>
      intro st x
      simp [applyActive]
  | cons e rest ih =>
      intro st x
      obtain ⟨id, d⟩ := e
      rw [applyActive, ih, applyOne_keys_mem]
      simp only [List.map_cons, List.mem_cons]
      tauto

lemma applyActive_inv (a : List (ℤ × RadarSlot)) :
    ∀ st : RadarTracks, RadarInv st → RadarInv (applyActive a st) := by
  induction a with
  | nil => intro st h; exact h
  | cons e rest ih =>
      intro st hinv
      obtain ⟨id, d⟩ := e
      rw [applyActive]
      exact ih _ (applyOne_inv id d st hinv)

lemma applyActive_lookup_notin (a : List (ℤ × RadarSlot)) :
    ∀ (st : RadarTracks) (x : ℤ), x ∉ a.map Prod.fst →
      lookupZ x (applyActive a st).pts = lookupZ x st.pts := by
  induction a with
  | nil => intro st x _; rfl
  | cons e rest ih =>
      intro st x hx
      obtain ⟨id, d⟩ := e
      simp only [List.map_cons, List.mem_cons] at hx
      push_neg at hx
      rw [applyActive, ih _ _ hx.2]
      exact applyOne_lookup_other id x d st hx.1

lemma applyActive_fresh (a : List (ℤ × RadarSlot)) :
    ∀ (st : RadarTracks) (id : ℤ), (a.map Prod.fst).Nodup →
      id ∈ a.map Prod.fst → lookupZ id st.pts = none →
      ∃ p : RadarPoint, lookupZ id (applyActive a st).pts = some p ∧
        st.trackId ≤ p.trackId := by
  induction a with
  | nil =>
      intro st id _ hmem _
      exact absurd hmem (by simp)
  | cons e rest ih =>
      intro st id hnd hmem hnew
      obtain ⟨k, d⟩ := e
      simp only [List.map_cons, List.nodup_cons] at hnd
      rw [applyActive]
      rw [List.map_cons] at hmem
      rcases List.mem_cons.mp hmem with heq | hmem2
      · have hid : id = k := heq
        subst hid
        refine ⟨⟨st.trackId, d.longDistance, d.latDistance, d.relVelo, true⟩, ?_, le_rfl⟩
        rw [applyActive_lookup_notin rest _ id hnd.1]
        exact applyOne_fresh id d st hnew
      · have hkid : k ≠ id := by
          intro hc
          rw [hc] at hnd
          exact hnd.1 hmem2
        have hnew2 : lookupZ id (applyOne k d st).pts = none := by
          rw [applyOne_lookup_other k id d st (fun hc => hkid hc.symm)]
          exact hnew
        obtain ⟨p, hp, hple⟩ := ih (applyOne k d st) id hnd.2 hmem2 hnew2
        exact ⟨p, hp, le_trans (applyOne_trackId_mono k d st) hple⟩

lemma filter_keys_mem (pts : List (ℤ × RadarPoint)) (active : List (ℤ × RadarSlot))
    (x : ℤ) :
    (x ∈ (pts.filter (fun q => (lookupZ q.1 active).isSome)).map Prod.fst) ↔
      (x ∈ pts.map Prod.fst ∧ (lookupZ x active).isSome = true) := by
  induction pts with
  | nil => simp
  | cons q rest ih =>
      rw [List.filter_cons]
      by_cases hq : (lookupZ q.1 active).isSome = true
      · rw [if_pos (by simp [hq])]
        simp only [List.map_cons, List.mem_cons, ih]
        constructor
        · rintro (h | h)
          · exact ⟨Or.inl h, by rw [h]; exact hq⟩
          · exact ⟨Or.inr h.1, h.2⟩
        · rintro ⟨h1 | h1, h2⟩
          · exact Or.inl h1
          · exact Or.inr ⟨h1, h2⟩
      · rw [if_neg (by simp [hq])]
        simp only [List.map_cons, List.mem_cons, ih]
        constructor
        · rintro ⟨h1, h2⟩
          exact ⟨Or.inr h1, h2⟩
        · rintro ⟨h1 | h1, h2⟩
          · rw [h1] at h2
            exact absurd h2 hq
          · exact ⟨h1, h2⟩

lemma lookupZ_filter (pts : List (ℤ × RadarPoint)) (active : List (ℤ × RadarSlot))
    (id : ℤ) (h : (lookupZ id active).isSome = true) :
    lookupZ id (pts.filter (fun q => (lookupZ q.1 active).isSome)) = lookupZ id pts := by
  induction pts with
  | nil => rfl
  | cons q rest ih =>
      rw [List.filter_cons]
      by_cases hid : q.1 = id
      · rw [if_pos (by simp [hid, h])]
        rw [lookupZ, lookupZ, if_pos hid, if_pos hid]
      · by_cases hq : (lookupZ q.1 active).isSome = true
        · rw [if_pos (by simp [hq])]
          rw [lookupZ, lookupZ, if_neg hid, if_neg hid]
          exact ih
        · rw [if_neg (by simp [hq])]
          rw [ih, lookupZ, if_neg hid]

lemma filter_inv (pts : List (ℤ × RadarPoint)) (tid : Nat)
    (P : ℤ × RadarPoint → Bool) (hinv : RadarInv ⟨pts, tid⟩) :
    RadarInv ⟨pts.filter P, tid⟩ := by
  obtain ⟨htids, hbound, hkeys⟩ := hinv
  have hsub : List.Sublist (pts.filter P) pts := List.filter_sublist pts
  refine ⟨?_, ?_, ?_⟩
  · exact List.Nodup.sublist (hsub.map _) htids
  · intro t ht
    exact hbound t ((hsub.map _).mem ht)
  · exact List.Nodup.sublist (hsub.map _) hkeys

lemma two_slots_not_nodup :
    ∀ (slots : List RadarSlot) (i j : ℕ) (hi : i < slots.length)
      (hj : j < slots.length), i < j →
      (slots.get ⟨i, hi⟩).objectId = (slots.get ⟨j, hj⟩).objectId →
      (slots.get ⟨i, hi⟩).objectId ≠ 0 → ¬ (slotIds slots).Nodup := by
  intro slots
  induction slots with
  | nil =>
      intro i j hi
      exact absurd hi (by simp)
  | cons s rest ih =>
      intro i j hi hj hij heq hnz hnd
      cases i with
      | zero =>
          cases j with
          | zero => exact absurd hij (by omega)
          | succ j2 =>
              have hj2 : j2 < rest.length := Nat.lt_of_succ_lt_succ hj
              have hgj : (s :: rest).get ⟨j2 + 1, hj⟩ = rest.get ⟨j2, hj2⟩ := rfl
              have hgi : (s :: rest).get ⟨0, hi⟩ = s := rfl
              rw [hgi] at heq hnz
              rw [hgj] at heq
              rw [slotIds_cons_nonzero s rest hnz] at hnd
              obtain ⟨hnot, _⟩ := List.nodup_cons.mp hnd
              apply hnot
              rw [heq]
              apply List.mem_filter.mpr
              refine ⟨List.mem_map_of_mem (fun t => t.objectId) (List.get_mem rest _ _), ?_⟩
              simp only [decide_eq_true_eq]
              rw [← heq]
              exact hnz
      | succ i2 =>
          cases j with
          | zero => exact absurd hij (by omega)
          | succ j2 =>
              have hi2 : i2 < rest.length := Nat.lt_of_succ_lt_succ hi
              have hj2 : j2 < rest.length := Nat.lt_of_succ_lt_succ hj
              have hgi : (s :: rest).get ⟨i2 + 1, hi⟩ = rest.get ⟨i2, hi2⟩ := rfl
              have hgj : (s :: rest).get ⟨j2 + 1, hj⟩ = rest.get ⟨j2, hj2⟩ := rfl
              rw [hgi] at heq hnz
              rw [hgj] at heq
              have hrest : (slotIds rest).Nodup := by
                by_cases h0 : s.objectId = 0
                · rw [slotIds_cons_zero s rest h0] at hnd
                  exact hnd
                · rw [slotIds_cons_nonzero s rest h0] at hnd
                  exact (List.nodup_cons.mp hnd).2
              exact ih i2 j2 hi2 hj2 (by omega) heq hnz hrest

lemma radarUpdate_invalid (slots : List RadarSlot) (st : RadarTracks) :
    radarUpdate false slots st = (st, ⟨["canError"], []⟩) := rfl

lemma radarUpdate_colfail (slots : List RadarSlot) (st : RadarTracks)
    (h : collectActive slots [] = none) :
    radarUpdate true slots st = (st, ⟨["canError"], []⟩) := by
  unfold radarUpdate
  rw [if_neg (by simp), h]

lemma radarUpdate_ok (slots : List RadarSlot) (st : RadarTracks)
    (active : List (ℤ × RadarSlot)) (h : collectActive slots [] = some active) :
    radarUpdate true slots st =
      (⟨(applyActive active st).pts.filter (fun q => (lookupZ q.1 active).isSome),
        (applyActive active st).trackId⟩,
       ⟨[], ((applyActive active st).pts.filter
          (fun q => (lookupZ q.1 active).isSome)).map (fun q => q.2)⟩) := by
  unfold radarUpdate
  rw [if_neg (by simp), h]

/-- **C8.** A radar frame in which two different signal slots carry the
same non-zero object identifier makes `_update` return an output whose
`errors` contain `"canError"` (no exception is modelled: the function is
total); a valid frame with pairwise distinct non-zero identifiers
returns an empty `errors` list. -/
theorem radar_duplicate_reports_canError (canValid : Bool) (slots : List RadarSlot)
    (st : RadarTracks) :
    ((∃ (i : ℕ) (j : ℕ) (hi : i < slots.length) (hj : j < slots.length), i ≠ j ∧
        (slots.get ⟨i, hi⟩).objectId = (slots.get ⟨j, hj⟩).objectId ∧
        (slots.get ⟨i, hi⟩).objectId ≠ 0) →
      "canError" ∈ (radarUpdate canValid slots st).2.errors) ∧
    (canValid = true → (slotIds slots).Nodup →
      (radarUpdate canValid slots st).2.errors = []) := by
  constructor
  · rintro ⟨i, j, hi, hj, hij, heq, hnz⟩
    have hnotnd : ¬ (slotIds slots).Nodup := by
      rcases lt_or_gt_of_ne hij with hlt | hgt
      · exact two_slots_not_nodup slots i j hi hj hlt heq hnz
      · exact two_slots_not_nodup slots j i hj hi hgt heq.symm (by rw [← heq]; exact hnz)
    have hcol : collectActive slots [] = none := by
      cases hc : collectActive slots [] with
      | none => rfl
      | some a =>
          exfalso
          have hsome : (collectActive slots []).isSome = true := by rw [hc]; rfl
          rw [collectActive_isSome_iff] at hsome
          exact hnotnd hsome.1
    cases canValid with
    | false =>
        rw [radarUpdate_invalid]
        simp
    | true =>
        rw [radarUpdate_colfail slots st hcol]
        simp
  · intro hcv hnd
    subst hcv
    have hsome : (collectActive slots []).isSome = true := by
      rw [collectActive_isSome_iff]
      exact ⟨hnd, fun x _ => rfl⟩
    obtain ⟨active, hc⟩ := Option.isSome_iff_exists.mp hsome
    rw [radarUpdate_ok slots st active hc]

/-- Witness for `radar_duplicate_reports_canError`: a valid frame with
slots carrying distinct non-zero ids 1 and 2 produces no error. -/
theorem radar_duplicate_reports_canError_witness :
    (radarUpdate true [⟨1, 0, 0, 0⟩, ⟨2, 5, 5, 5⟩] ⟨[], 0⟩).2.errors = [] :=
  (radar_duplicate_reports_canError true [⟨1, 0, 0, 0⟩, ⟨2, 5, 5, 5⟩] ⟨[], 0⟩).2
    rfl (by decide)

/-- **C10.** After an error-free radar update (valid bus, pairwise
distinct non-zero ids), the tracked keys are exactly the frame's
non-zero object identifiers (ids absent from the frame are dropped);
the state stays well-formed — in particular no two tracked points share
a `trackId`; the fresh-id counter never decreases; and every newly
appearing identifier gets a point whose `trackId` is drawn at or above
the previous counter value. -/
theorem radar_tracking_exact (slots : List RadarSlot) (st : RadarTracks)
    (hinv : RadarInv st) (hnd : (slotIds slots).Nodup) :
    (∀ x : ℤ, x ∈ (radarUpdate true slots st).1.pts.map Prod.fst ↔ x ∈ slotIds slots) ∧
    RadarInv (radarUpdate true slots st).1 ∧
    st.trackId ≤ (radarUpdate true slots st).1.trackId ∧
    (∀ id : ℤ, id ∈ slotIds slots → lookupZ id st.pts = none →
      ∃ p : RadarPoint, lookupZ id (radarUpdate true slots st).1.pts = some p ∧
        st.trackId ≤ p.trackId) := by
  have hsome : (collectActive slots []).isSome = true := by
    rw [collectActive_isSome_iff]
    exact ⟨hnd, fun x _ => rfl⟩
  obtain ⟨active, hc⟩ := Option.isSome_iff_exists.mp hsome
  have hkeysa : active.map Prod.fst = slotIds slots := by
    have := collectActive_keys slots [] active hc
    rw [this]
    rfl
  rw [radarUpdate_ok slots st active hc]
  refine ⟨?_, ?_, ?_, ?_⟩
  · intro x
    show x ∈ ((applyActive active st).pts.filter _).map Prod.fst ↔ _
    rw [filter_keys_mem, applyActive_keys_mem, lookupZ_isSome_iff, hkeysa]
    constructor
    · exact fun h => h.2
    · exact fun h => ⟨Or.inr h, h⟩
  · have hinv1 : RadarInv (applyActive active st) := applyActive_inv active st hinv
    have : RadarInv ⟨(applyActive active st).pts, (applyActive active st).trackId⟩ := hinv1
    exact filter_inv _ _ _ this
  · exact applyActive_trackId_mono active st
  · intro id hid hnew
    have hmem : id ∈ active.map Prod.fst := by rw [hkeysa]; exact hid
    have hnda : (active.map Prod.fst).Nodup := by rw [hkeysa]; exact hnd
    obtain ⟨p, hp, hple⟩ := applyActive_fresh active st id hnda hmem hnew
    refine ⟨p, ?_, hple⟩
    show lookupZ id ((applyActive active st).pts.filter _) = some p
    rw [lookupZ_filter _ active id (by rw [lookupZ_isSome_iff]; exact hmem)]
    exact hp

/-- Witness for `radar_tracking_exact`: a state tracking id 5 with
counter 1 sees a frame with ids 5 and 7; the new id 7 gets a point with
a fresh track id at or above 1. -/
theorem radar_tracking_exact_witness :
    ∃ p : RadarPoint,
      lookupZ 7 (radarUpdate true [⟨5, 10, 1, 2⟩, ⟨0, 0, 0, 0⟩, ⟨7, 20, 0, 1⟩]
        ⟨[(5, ⟨0, 9, 9, 9, true⟩)], 1⟩).1.pts = some p ∧ 1 ≤ p.trackId :=
  (radar_tracking_exact [⟨5, 10, 1, 2⟩, ⟨0, 0, 0, 0⟩, ⟨7, 20, 0, 1⟩]
    ⟨[(5, ⟨0, 9, 9, 9, true⟩)], 1⟩
    ⟨by decide, by decide, by decide⟩ (by decide)).2.2.2 7 (by decide) (by decide)

end VW
